import Mathlib

/-!
# AttributeMaster — verification of the attribute state model and reorder protocol

Shallow embedding of `src/AttributeMaster.py` (a Maya attribute-panel tool).
The host (Maya `cmds`) is modelled as a state machine over the single inspected
node: its user-defined attributes in host order, the undo-queue configuration
(state / infinity / length), the undo queue itself, and an event log recording
the protocol-level operations (deletions and undo steps).

Host semantics not present in the source are modelled from the spec:
* a host call that targets an absent attribute raises a host failure
  (spec section 7, `AttributeAbsent` / `HostCallFailure`);
* creating an attribute whose long name already exists raises a name
  collision (spec section 4.1, `NameCollision`);
* renaming a locked attribute is forbidden by the host (spec section 4.1);
* the host only supports appending new attributes at the end, and undoing a
  recorded deletion re-creates the deleted attribute, hence appends it
  (spec section 4.2 — this is the mechanism the reorder protocol relies on).
-/

/-- One user-defined attribute of the inspected node, as the host stores it:
long/nice name, the lock / keyable / channelBox flags, and the plugs connected
into and out of it. -/
structure HostAttr where
  longName : String
  niceName : String
  locked : Bool
  keyable : Bool
  channelBox : Bool
  incoming : List String
  outgoing : List String
deriving Repr, DecidableEq

/-- The host undo-queue configuration: the three values saved and restored by
`UndoStateContext` (src lines 99-112): `cmds.undoInfo` state, infinity and
length. -/
structure UndoConfig where
  state : Bool
  infinity : Bool
  length : Nat
deriving Repr, DecidableEq

/-- An entry of the host undo queue. The tool only steps the queue across its
own deletion chunks (`Attribute.delete` runs inside `UndoChunkContext`), so the
entries modelled are recorded deletion chunks, each holding the attribute
record as it was when the chunk opened. -/
inductive UndoEntry where
  | deletedAttr : HostAttr → UndoEntry
deriving Repr, DecidableEq

/-- Protocol-level events logged by the host model: an attribute deletion and
an undo step. -/
inductive HostEvent where
  | deleted : String → HostEvent
  | undid : HostEvent
deriving Repr, DecidableEq

/-- Host-reported failures (spec section 7): operation on an absent attribute,
name collision on create/rename, empty undo queue, renaming a locked
attribute. -/
inductive HostErr where
  | attributeAbsent : String → HostErr
  | nameCollision : String → HostErr
  | nothingToUndo : HostErr
  | renameLocked : String → HostErr
deriving Repr, DecidableEq

/-- The host state: the inspected node's user-defined attributes in host
order, the undo-queue configuration, the undo queue (most recent first) and
the event log. -/
structure HostState where
  attrs : List HostAttr
  config : UndoConfig
  undoQueue : List UndoEntry
  log : List HostEvent
deriving Repr, DecidableEq

/-- A host computation: state in, state out plus a result or a raised host
failure. The state at raise time is kept, because Python's `with` blocks
(`UndoStateContext.__exit__`) still run when the body raises. -/
def HostM (α : Type) : Type := HostState → HostState × Except HostErr α

def HostM.pure {α : Type} (a : α) : HostM α := fun s => (s, Except.ok a)

/-- Sequencing with exception propagation: a raised host failure skips the
rest of the computation (Python exception semantics). -/
def HostM.bind {α β : Type} (m : HostM α) (f : α → HostM β) : HostM β := fun s =>
  match m s with
  | (s1, Except.ok a) => f a s1
  | (s1, Except.error e) => (s1, Except.error e)

/-- `cmds.attributeQuery(ln, node=node, exists=True)` resolved against the
model: the first attribute of the node with the given long name. -/
def findAttr (s : HostState) (ln : String) : Option HostAttr :=
  s.attrs.find? (fun a => a.longName == ln)

/-- Whether an attribute with the given long name exists on the node. -/
def attrExists (s : HostState) (ln : String) : Bool :=
  (findAttr s ln).isSome

/-- Apply `f` to every attribute of the node named `ln` (a `cmds.setAttr` /
`cmds.renameAttr` style in-place edit). -/
def updateAttr (s : HostState) (ln : String) (f : HostAttr → HostAttr) : HostState :=
  { s with attrs := s.attrs.map (fun a => if a.longName == ln then f a else a) }

/-- Queue truncation by the configured length limit when the queue is not
infinite. -/
def truncateQueue (cfg : UndoConfig) (q : List UndoEntry) : List UndoEntry :=
  if cfg.infinity then q else q.take cfg.length

/-- Record an undo entry: only when the undo state is enabled, and subject to
the length limit. -/
def pushUndo (e : UndoEntry) (s : HostState) : HostState :=
  if s.config.state then
    { s with undoQueue := truncateQueue s.config (e :: s.undoQueue) }
  else s

/-- `cmds.setAttr(path, lock=b)`: raises on an absent attribute. -/
def setAttrLock (ln : String) (b : Bool) : HostM Unit := fun s =>
  if attrExists s ln then
    (updateAttr s ln (fun a => { a with locked := b }), Except.ok ())
  else (s, Except.error (HostErr.attributeAbsent ln))

/-- `cmds.setAttr(path, keyable=b)`: raises on an absent attribute. The
channelBox flag is a separate host flag and is not modified by a keyable
write (spec section 6 lists lock / keyable / channel-visibility as distinct
read/write flags). -/
def setAttrKeyable (ln : String) (b : Bool) : HostM Unit := fun s =>
  if attrExists s ln then
    (updateAttr s ln (fun a => { a with keyable := b }), Except.ok ())
  else (s, Except.error (HostErr.attributeAbsent ln))

/-- `cmds.setAttr(path, channelBox=b)`: raises on an absent attribute. -/
def setAttrChannelBox (ln : String) (b : Bool) : HostM Unit := fun s =>
  if attrExists s ln then
    (updateAttr s ln (fun a => { a with channelBox := b }), Except.ok ())
  else (s, Except.error (HostErr.attributeAbsent ln))

/-- `cmds.renameAttr(node.src, tgt)`. Modelled from the spec: the host forbids
renaming locked attributes (spec section 4.1) and rejects a target name that
already exists on the node (long names are unique per node, spec section 3);
an absent source raises. -/
def renameAttr (src tgt : String) : HostM Unit := fun s =>
  match findAttr s src with
  | none => (s, Except.error (HostErr.attributeAbsent src))
  | some a =>
    if a.locked then (s, Except.error (HostErr.renameLocked src))
    else if attrExists s tgt then (s, Except.error (HostErr.nameCollision tgt))
    else (updateAttr s src (fun x => { x with longName := tgt }), Except.ok ())

/-- `cmds.undo()`. Modelled from the spec (section 4.2): undoing a recorded
deletion chunk re-creates the deleted attribute; the host only supports
appending new attributes at the end, so the restored attribute lands at the
end of the node's attribute order. An empty queue raises. -/
def undoOp : HostM Unit := fun s =>
  match s.undoQueue with
  | [] => (s, Except.error HostErr.nothingToUndo)
  | UndoEntry.deletedAttr a :: rest =>
    ({ s with attrs := s.attrs ++ [a], undoQueue := rest, log := s.log ++ [HostEvent.undid] },
      Except.ok ())

/-- `UndoStateContext.__enter__` (src line 105): `cmds.undoInfo(state=True,
infinity=True)` — force undo recording on with an unlimited queue; the length
value is not written on entry. -/
def forceUndo (s : HostState) : HostState :=
  { s with config := { s.config with state := true, infinity := true } }

/-- Embeds `UndoStateContext` used as a `with` block (src lines 89-112):
`__init__` saves state/infinity/length, `__enter__` forces the known-good
mode, `__exit__` writes all three saved values back — and `__exit__` runs on
every exit path, also when the body raises. -/
def withUndoState {α : Type} (body : HostM α) : HostM α := fun s =>
  match body (forceUndo s) with
  | (s2, r) => ({ s2 with config := s.config }, r)

/-- Embeds `Attribute.delete` (src lines 226-254), whose body runs inside
`UndoChunkContext` so the whole deletion is one undo entry. The first host
call, `cmds.setAttr(self.path, lock=False)`, raises when the attribute is
absent; otherwise the attribute is unlocked, its incoming and outgoing
connections broken, and the attribute removed (`cmds.deleteAttr`), and the
closed chunk is recorded on the undo queue holding the attribute record as of
chunk open. -/
def attrDelete (ln : String) : HostM Unit := fun s =>
  match findAttr s ln with
  | none => (s, Except.error (HostErr.attributeAbsent ln))
  | some a =>
    let s1 := updateAttr s ln (fun x => { x with locked := false })
    let s2 := updateAttr s1 ln (fun x => { x with incoming := [], outgoing := [] })
    let s3 := { s2 with attrs := s2.attrs.filter (fun x => x.longName != ln),
                        log := s2.log ++ [HostEvent.deleted ln] }
    (pushUndo (UndoEntry.deletedAttr a) s3, Except.ok ())

/-- The deletion loop of `AttributeMaster.reorder` (src lines 674-675): delete
each listed attribute in turn. -/
def deleteAll : List String → HostM Unit
  | [] => HostM.pure ()
  | ln :: rest => HostM.bind (attrDelete ln) (fun _ => deleteAll rest)

/-- The undo loop of `AttributeMaster.reorder` (src lines 677-678): step the
undo queue backward `n` times. -/
def undoN : Nat → HostM Unit
  | 0 => HostM.pure ()
  | n + 1 => HostM.bind undoOp (fun _ => undoN n)

/-- Embeds `AttributeMaster.reorder` (src lines 668-678): inside
`UndoStateContext`, delete the attributes in the reverse of the list order
(`reversed(self.attributes_ordered)`), then undo `self.listWidget.count()`
(= the number of listed attributes) times. `desired` is the list of long
names in widget order, i.e. the desired final order. -/
def reorder (desired : List String) : HostM Unit :=
  withUndoState
    (HostM.bind (deleteAll desired.reverse) (fun _ => undoN desired.length))

/-- The long-name branch of `Attribute.rename` (src lines 307-320): silently
return when the proposed long name already exists on the node; otherwise save
`is_locked()`, unlock if it was locked, `cmds.renameAttr` to the new name,
and restore the lock through the record's new path. Returns the record's
`self.longName` after the call. -/
def renameLongPart (selfLong : String) (longNameQ : Option String) : HostM String := fun s =>
  match longNameQ with
  | none => (s, Except.ok selfLong)
  | some lnew =>
    if attrExists s lnew then (s, Except.ok selfLong)
    else
      let wasLocked := (findAttr s selfLong).elim false (fun a => a.locked)
      let s1 := if wasLocked then updateAttr s selfLong (fun x => { x with locked := false }) else s
      match renameAttr selfLong lnew s1 with
      | (s2, Except.error e) => (s2, Except.error e)
      | (s2, Except.ok _) =>
        let s3 := if wasLocked then updateAttr s2 lnew (fun x => { x with locked := true }) else s2
        (s3, Except.ok lnew)

/-- Embeds `Attribute.rename` (src lines 277-321). The nice-name branch
returns from the whole method on a name collision (skipping the long-name
branch); otherwise it edits the nice name (`cmds.addAttr(edit=True, nn=...)`,
which raises when the attribute is absent), then performs the TMP rename
round-trip with the lock temporarily removed. The long-name branch is
`renameLongPart`. -/
def attrRename (selfLong : String) (niceNameQ longNameQ : Option String) : HostM String := fun s =>
  match niceNameQ with
  | none => renameLongPart selfLong longNameQ s
  | some nice =>
    if attrExists s nice then (s, Except.ok selfLong)
    else
      match findAttr s selfLong with
      | none => (s, Except.error (HostErr.attributeAbsent selfLong))
      | some _ =>
        let s1 := updateAttr s selfLong (fun x => { x with niceName := nice })
        let wasLocked := (findAttr s1 selfLong).elim false (fun a => a.locked)
        let s2 := if wasLocked then updateAttr s1 selfLong (fun x => { x with locked := false }) else s1
        match renameAttr selfLong ("TMP_" ++ selfLong) s2 with
        | (s3, Except.error e) => (s3, Except.error e)
        | (s3, Except.ok _) =>
          match renameAttr ("TMP_" ++ selfLong) selfLong s3 with
          | (s4, Except.error e) => (s4, Except.error e)
          | (s4, Except.ok _) =>
            let s5 := if wasLocked then updateAttr s4 selfLong (fun x => { x with locked := true }) else s4
            renameLongPart selfLong longNameQ s5

/-- Embeds `AttributeMaster.set_keyable` (src lines 510-518) for one selected
attribute: `cmds.setAttr(path, lock=False)` then
`cmds.setAttr(path, keyable=True)`. -/
def set_keyable (ln : String) : HostM Unit :=
  HostM.bind (setAttrLock ln false) (fun _ => setAttrKeyable ln true)

/-- Embeds `AttributeMaster.set_notkeyable` (src lines 520-529) for one
selected attribute: unlock, keyable off, channelBox flag on. -/
def set_notkeyable (ln : String) : HostM Unit :=
  HostM.bind (setAttrLock ln false)
    (fun _ => HostM.bind (setAttrKeyable ln false) (fun _ => setAttrChannelBox ln true))

/-- Embeds `AttributeMaster.set_displayable` (src lines 531-540) for one
selected attribute: lock, keyable off, channelBox flag on. -/
def set_displayable (ln : String) : HostM Unit :=
  HostM.bind (setAttrLock ln true)
    (fun _ => HostM.bind (setAttrKeyable ln false) (fun _ => setAttrChannelBox ln true))

/-- Embeds `AttributeMaster.set_hidden` (src lines 542-551) for one selected
attribute: keyable off, lock, channelBox flag off. -/
def set_hidden (ln : String) : HostM Unit :=
  HostM.bind (setAttrKeyable ln false)
    (fun _ => HostM.bind (setAttrLock ln true) (fun _ => setAttrChannelBox ln false))

/-- Whether `pat` is an initial segment of `l` (character-list comparison). -/
def hasPre : List Char → List Char → Bool
  | [], _ => true
  | _ :: _, [] => false
  | a :: as, b :: bs => a == b && hasPre as bs

/-- Whether `pat` occurs contiguously anywhere inside `l`. -/
def hasSub (pat : List Char) : List Char → Bool
  | [] => hasPre pat []
  | b :: bs => hasPre pat (b :: bs) || hasSub pat bs

/-- Python's `"__seperator_" in self.longName` — substring containment. -/
def strContainsSub (hay pat : String) : Bool :=
  hasSub pat.toList hay.toList

/-- Embeds `Attribute.is_seperator` (src lines 173-174): the long name
contains the reserved marker `__seperator_`. -/
def is_seperator (ln : String) : Bool :=
  strContainsSub ln "__seperator_"

/-- Embeds `Attribute.is_hidden` (src lines 170-171): the attribute exists and
`cmds.getAttr(path, channelBox=True) is False` — i.e. the channelBox flag is
not set. -/
def is_hidden (s : HostState) (ln : String) : Bool :=
  match findAttr s ln with
  | none => false
  | some a => a.channelBox == false

/-- Embeds `Attribute.is_keyable` (src lines 164-165). -/
def is_keyable (s : HostState) (ln : String) : Bool :=
  match findAttr s ln with
  | none => false
  | some a => a.keyable

/-- Embeds `Attribute.is_locked` (src lines 167-168). -/
def is_locked (s : HostState) (ln : String) : Bool :=
  match findAttr s ln with
  | none => false
  | some a => a.locked

/-- The display classes painted by `Attribute.refresh`. -/
inductive DisplayClass where
  | seperatorClass
  | hiddenClass
  | lockedClass
  | notKeyableClass
  | keyableClass
deriving Repr, DecidableEq

/-- Embeds the if/elif chain of `Attribute.refresh` (src lines 265-274) on the
flags of an existing attribute (`isSep` = `is_seperator()`, `locked` =
`is_locked()`, `keyable` = `is_keyable()`, `channelBox` the channelBox flag so
that `is_hidden()` = `channelBox == false`). `none` would mean no branch
matched and no background class was substituted. -/
def refreshClass (isSep locked keyable channelBox : Bool) : Option DisplayClass :=
  if isSep then some DisplayClass.seperatorClass
  else if (channelBox == false) && (keyable == false) then some DisplayClass.hiddenClass
  else if locked then some DisplayClass.lockedClass
  else if !keyable then some DisplayClass.notKeyableClass
  else if keyable then some DisplayClass.keyableClass
  else none

/-- The classification of an existing attribute of the node, as
`Attribute.refresh` derives it from the live host queries. -/
def attrDisplayClass (s : HostState) (ln : String) : Option DisplayClass :=
  match findAttr s ln with
  | none => none
  | some a => refreshClass (is_seperator ln) a.locked a.keyable a.channelBox

/-- Modelled from the spec: the rule table of section 4.1, in priority order —
separator, then hidden-and-not-keyable, then locked, then not-keyable, then
keyable. A flag tuple is `(isSep, locked, keyable, visibleInSummary)`. -/
def specDisplayRules :
    List (((Bool × Bool × Bool × Bool) → Bool) × DisplayClass) :=
  [ (fun f => f.1, DisplayClass.seperatorClass),
    (fun f => !f.2.2.2 && !f.2.2.1, DisplayClass.hiddenClass),
    (fun f => f.2.1, DisplayClass.lockedClass),
    (fun f => !f.2.2.1, DisplayClass.notKeyableClass),
    (fun f => f.2.2.1, DisplayClass.keyableClass) ]

/-- First rule whose guard matches wins (spec: "first match wins"). -/
def firstMatch :
    List (((Bool × Bool × Bool × Bool) → Bool) × DisplayClass) →
      (Bool × Bool × Bool × Bool) → Option DisplayClass
  | [], _ => none
  | (p, c) :: rest, f => if p f then some c else firstMatch rest f

/-- Modelled from the spec: the derived display classification of section 4.1
as first-match over the priority-ordered rule table. -/
def specDisplayClass (f : Bool × Bool × Bool × Bool) : Option DisplayClass :=
  firstMatch specDisplayRules f

/-- The data-type table of the tool (src line 36). -/
def data_types : List String :=
  ["Vector", "Integer", "String", "Double", "Boolean", "Enum"]

def type_vector : Nat := 0
def type_integer : Nat := 1
def type_string : Nat := 2
def type_double : Nat := 3
def type_boolean : Nat := 4
def type_enum : Nat := 5

/-- Embeds `get_type_index` (src lines 46-59): match the lowercase type name,
falling through to `type_double`. -/
def get_type_index (name : String) : Nat :=
  if name = "vector" then type_vector
  else if name = "integer" then type_integer
  else if name = "string" then type_string
  else if name = "double" then type_double
  else if name = "boolean" then type_boolean
  else if name = "enum" then type_enum
  else type_double

/-- The reserved separator long name for a numeric id
(`"__seperator_" + str(id)` in the source). -/
def sepName (id : Nat) : String :=
  "__seperator_" ++ toString id

/-- Embeds the id-search loop of `AttributeMaster.add_new_seperator` (src
lines 691-697). The Python loop advances `id` while `__seperator_id` exists,
counting existence checks in `max` and breaking once `max > 10` — i.e. on the
11th consecutive existing id, leaving `id = 10`. `fuel` is the number of
existence checks still allowed before the break (`11 - max`), so the initial
call uses fuel 11. -/
def sepSearchGo (s : HostState) : Nat → Nat → Nat
  | id, 0 => id
  | id, fuel + 1 =>
    if attrExists s (sepName id) then
      if fuel = 0 then id else sepSearchGo s (id + 1) fuel
    else id

/-- The id chosen by `add_new_seperator` for the next separator. -/
def sepSearch (s : HostState) : Nat :=
  sepSearchGo s 0 11

/-- `cmds.addAttr(node, longName=ln, attributeType='enum', niceName=nice,
enumName=" ")`. Modelled from the spec: creation fails with a name collision
when the long name already exists on the node (spec section 4.1); the host
appends the new attribute at the end, initially unlocked, not keyable, with
the channelBox flag unset. -/
def addAttrEnum (ln nice : String) : HostM Unit := fun s =>
  if attrExists s ln then (s, Except.error (HostErr.nameCollision ln))
  else ({ s with attrs := s.attrs ++ [⟨ln, nice, false, false, false, [], []⟩] }, Except.ok ())

/-- Embeds `AttributeMaster.add_new_seperator` (src lines 680-709) with the
modal dialog modelled by its outcome (`text`, `result`): find the next id by
the bounded search, and when the dialog was accepted with nonempty text, add
the enum attribute under that name, then set its channelBox flag and lock it. -/
def add_new_seperator (text : String) (result : Bool) : HostM Unit := fun s =>
  let name := sepName (sepSearch s)
  if result && decide (0 < text.length) then
    match addAttrEnum name text s with
    | (s1, Except.error e) => (s1, Except.error e)
    | (s1, Except.ok _) =>
      let s2 := updateAttr s1 name (fun x => { x with channelBox := true })
      let s3 := updateAttr s2 name (fun x => { x with locked := true })
      (s3, Except.ok ())
  else (s, Except.ok ())

/-! ## List-level facts about the attribute table -/

/-- `find?` only inspects the elements of the list, so predicates that agree
on them find the same result. -/
theorem find?_congr_mem {α : Type} (p q : α → Bool) (l : List α)
    (h : ∀ a ∈ l, p a = q a) : l.find? p = l.find? q := by
  induction l with
  | nil => rfl
  | cons hd tl ih =>
    rw [List.find?_cons, List.find?_cons, h hd (by simp)]
    cases hq : q hd
    · exact ih (fun a ha => h a (by simp [ha]))
    · rfl

/-- A long-name-preserving per-name edit commutes with attribute lookup. -/
theorem find?_map_upd (tgt ln : String) (f : HostAttr → HostAttr)
    (hf : ∀ a, (f a).longName = a.longName) (l : List HostAttr) :
    (l.map (fun a => if a.longName == tgt then f a else a)).find?
        (fun a => a.longName == ln)
      = Option.map (fun a => if a.longName == tgt then f a else a)
          (l.find? (fun a => a.longName == ln)) := by
  rw [List.find?_map]
  have hcomp : ((fun a : HostAttr => a.longName == ln)
        ∘ (fun a => if a.longName == tgt then f a else a))
      = (fun a : HostAttr => a.longName == ln) := by
    funext a
    by_cases h : a.longName = tgt <;> simp [Function.comp, h, hf]
  rw [hcomp]

/-- A per-name edit that renames `src` to `tgt` makes the renamed record the
lookup result for `tgt`, provided no record of the table is named `tgt`. -/
theorem find?_map_rename (src tgt : String) (f : HostAttr → HostAttr)
    (hf : ∀ a, (f a).longName = tgt) (l : List HostAttr)
    (hno : ∀ a ∈ l, a.longName ≠ tgt) :
    (l.map (fun a => if a.longName == src then f a else a)).find?
        (fun a => a.longName == tgt)
      = Option.map f (l.find? (fun a => a.longName == src)) := by
  rw [List.find?_map]
  have hcomp : l.find? ((fun a : HostAttr => a.longName == tgt)
        ∘ (fun a => if a.longName == src then f a else a))
      = l.find? (fun a => a.longName == src) := by
    apply find?_congr_mem
    intro a ha
    by_cases h : a.longName = src
    · simp [Function.comp, h, hf]
    · simp [Function.comp, h, hno a ha]
  rw [hcomp]
  cases hfind : l.find? (fun a => a.longName == src) with
  | none => rfl
  | some a =>
    have ha : a.longName = src := by simpa using List.find?_some hfind
    simp [ha]

/-- Removing every record named `ln` after a long-name-preserving per-name
edit of the `ln` records gives the same table as removing them directly. -/
theorem filter_map_upd (ln : String) (f : HostAttr → HostAttr)
    (hf : ∀ a, (f a).longName = a.longName) (l : List HostAttr) :
    (l.map (fun a => if a.longName == ln then f a else a)).filter
        (fun a => a.longName != ln)
      = l.filter (fun a => a.longName != ln) := by
  rw [List.filter_map]
  have hcomp : ((fun a : HostAttr => a.longName != ln)
        ∘ (fun a => if a.longName == ln then f a else a))
      = (fun a : HostAttr => a.longName != ln) := by
    funext a
    by_cases h : a.longName = ln <;> simp [Function.comp, h, hf]
  rw [hcomp]
  have hid : ∀ a ∈ l.filter (fun a => a.longName != ln),
      (fun a : HostAttr => if a.longName == ln then f a else a) a = id a := by
    intro a ha
    have hne : a.longName ≠ ln := by
      simpa using (List.mem_filter.mp ha).2
    simp [hne]
  rw [List.map_congr_left hid, List.map_id]

/-- Removing the records named `d` does not change the lookup of a different
name `ln`. -/
theorem find?_filter_ne (d ln : String) (hne : ln ≠ d) (l : List HostAttr) :
    (l.filter (fun a => a.longName != d)).find? (fun a => a.longName == ln)
      = l.find? (fun a => a.longName == ln) := by
  rw [List.find?_filter]
  apply find?_congr_mem
  intro a _
  by_cases h2 : a.longName = ln
  · simp [h2, hne]
  · simp [h2]

/-- Attribute lookup after a long-name-preserving `updateAttr`. -/
theorem findAttr_updateAttr (s : HostState) (tgt ln : String) (f : HostAttr → HostAttr)
    (hf : ∀ a, (f a).longName = a.longName) :
    findAttr (updateAttr s tgt f) ln
      = Option.map (fun a => if a.longName == tgt then f a else a) (findAttr s ln) :=
  find?_map_upd tgt ln f hf s.attrs

/-- Characterization of a successful `Attribute.delete` under forced undo
recording: the attribute's records are removed, one undo entry holding the
pre-chunk record is pushed, the deletion is logged, and the undo-queue
configuration is untouched. -/
theorem attrDelete_found (s : HostState) (ln : String) (a : HostAttr)
    (ha : findAttr s ln = some a) (hstate : s.config.state = true)
    (hinf : s.config.infinity = true) :
    attrDelete ln s
      = ({ attrs := s.attrs.filter (fun x => x.longName != ln),
           config := s.config,
           undoQueue := UndoEntry.deletedAttr a :: s.undoQueue,
           log := s.log ++ [HostEvent.deleted ln] }, Except.ok ()) := by
  unfold attrDelete
  rw [ha]
  simp only [updateAttr, pushUndo, truncateQueue, hstate, hinf, if_true]
  rw [filter_map_upd ln (fun x => { x with incoming := [], outgoing := [] }) (fun a => rfl),
      filter_map_upd ln (fun x => { x with locked := false }) (fun a => rfl)]

/-- The deletion loop of the reorder protocol: when the listed names are
distinct and all present, every delete succeeds, each one is logged and
recorded as its own undo entry, and the configuration is untouched. -/
theorem deleteAll_ok : ∀ (ds : List String) (s : HostState),
    (∀ d ∈ ds, (findAttr s d).isSome = true) → ds.Nodup →
    s.config.state = true → s.config.infinity = true →
    ∃ s1, deleteAll ds s = (s1, Except.ok ()) ∧
      s1.config = s.config ∧
      s1.log = s.log ++ ds.map HostEvent.deleted ∧
      s1.undoQueue.length = ds.length + s.undoQueue.length := by
  intro ds
  induction ds with
  | nil =>
    intro s _ _ _ _
    exact ⟨s, rfl, rfl, by simp [deleteAll, HostM.pure], by simp [deleteAll, HostM.pure]⟩
  | cons ln rest ih =>
    intro s hex hnd hstate hinf
    obtain ⟨a, ha⟩ := Option.isSome_iff_exists.mp (hex ln (by simp))
    have hdel := attrDelete_found s ln a ha hstate hinf
    have hmemrest := (List.nodup_cons.mp hnd).1
    have hndrest := (List.nodup_cons.mp hnd).2
    set s1 : HostState :=
      { attrs := s.attrs.filter (fun x => x.longName != ln),
        config := s.config,
        undoQueue := UndoEntry.deletedAttr a :: s.undoQueue,
        log := s.log ++ [HostEvent.deleted ln] } with hs1
    have hexrest : ∀ d ∈ rest, (findAttr s1 d).isSome = true := by
      intro d hd
      have hne : d ≠ ln := fun h => hmemrest (h ▸ hd)
      have : findAttr s1 d = findAttr s d := by
        rw [hs1]
        show (s.attrs.filter (fun x => x.longName != ln)).find? (fun x => x.longName == d)
          = findAttr s d
        rw [find?_filter_ne ln d hne s.attrs]
        rfl
      rw [this]
      exact hex d (by simp [hd])
    obtain ⟨s2, h2, hc2, hl2, hq2⟩ := ih s1 hexrest hndrest (by rw [hs1]; exact hstate) (by rw [hs1]; exact hinf)
    refine ⟨s2, ?_, ?_, ?_, ?_⟩
    · show HostM.bind (attrDelete ln) (fun _ => deleteAll rest) s = (s2, Except.ok ())
      rw [HostM.bind, hdel]
      exact h2
    · rw [hc2, hs1]
    · rw [hl2, hs1]
      simp
    · rw [hq2, hs1]
      simp
      omega

/-- The undo loop of the reorder protocol: with enough recorded history every
step succeeds, each step is logged, and the configuration is untouched. -/
theorem undoN_ok : ∀ (n : Nat) (s : HostState), n ≤ s.undoQueue.length →
    ∃ s1, undoN n s = (s1, Except.ok ()) ∧
      s1.config = s.config ∧
      s1.log = s.log ++ List.replicate n HostEvent.undid ∧
      s1.undoQueue.length = s.undoQueue.length - n := by
  intro n
  induction n with
  | zero =>
    intro s _
    exact ⟨s, rfl, rfl, by simp [undoN, HostM.pure], by simp [undoN, HostM.pure]⟩
  | succ m ih =>
    intro s h
    match hq : s.undoQueue with
    | [] =>
      rw [hq] at h
      simp at h
    | UndoEntry.deletedAttr a :: rest =>
      have hu : undoOp s = ({ s with attrs := s.attrs ++ [a], undoQueue := rest, log := s.log ++ [HostEvent.undid] }, Except.ok ()) := by
        unfold undoOp
        rw [hq]
      have hlen : m ≤ rest.length := by
        rw [hq] at h
        simp at h
        omega
      obtain ⟨s2, h2, hc2, hl2, hq2⟩ := ih { s with attrs := s.attrs ++ [a], undoQueue := rest, log := s.log ++ [HostEvent.undid] } (by simpa using hlen)
      refine ⟨s2, ?_, ?_, ?_, ?_⟩
      · show HostM.bind undoOp (fun _ => undoN m) s = (s2, Except.ok ())
        rw [HostM.bind, hu]
        exact h2
      · rw [hc2]
      · rw [hl2]
        simp [List.replicate_succ]
      · rw [hq2]
        simp

/-- C4: the reorder operation deletes every attribute record in the reverse
of the desired final order — each deletion recorded as its own undo entry
(the queue grows by exactly one entry per deleted attribute) — and then
issues exactly as many undo steps as attributes were deleted, once each, in
sequence, as the event log of the run shows. -/
theorem reorder_protocol_trace (desired : List String) (s : HostState)
    (hnd : desired.Nodup) (hex : ∀ d ∈ desired, (findAttr s d).isSome = true) :
    ∃ s1, reorder desired s = (s1, Except.ok ()) ∧
      s1.log = s.log ++ desired.reverse.map HostEvent.deleted
          ++ List.replicate desired.length HostEvent.undid ∧
      (deleteAll desired.reverse (forceUndo s)).fst.undoQueue.length
        = desired.length + s.undoQueue.length := by
  have hexr : ∀ d ∈ desired.reverse, (findAttr (forceUndo s) d).isSome = true := by
    intro d hd
    rw [List.mem_reverse] at hd
    exact hex d hd
  have hndr : desired.reverse.Nodup := List.nodup_reverse.mpr hnd
  obtain ⟨s1, h1, hc1, hl1, hq1⟩ := deleteAll_ok desired.reverse (forceUndo s) hexr hndr rfl rfl
  have hq1' : s1.undoQueue.length = desired.length + s.undoQueue.length := by
    rw [hq1]
    simp [forceUndo]
  obtain ⟨s2, h2, hc2, hl2, hq2⟩ := undoN_ok desired.length s1 (by omega)
  refine ⟨{ s2 with config := s.config }, ?_, ?_, ?_⟩
  · show withUndoState (HostM.bind (deleteAll desired.reverse) (fun _ => undoN desired.length)) s
        = ({ s2 with config := s.config }, Except.ok ())
    rw [withUndoState, HostM.bind, h1]
    simp only [h2]
  · rw [hl2, hl1]
    simp [forceUndo]
  · rw [h1]
    rw [show (s1, Except.ok ()).fst = s1 from rfl]
    exact hq1'

/-- C5: `UndoStateContext` — used by `reorder`, the one operation that
depends on undo — saves the host undo-queue configuration, forces the
known-good mode (recording on, infinite queue, length untouched), and
restores the saved configuration on every exit path of the wrapped body,
including when the body raises a host failure. -/
theorem undo_settings_restored {α : Type} (body : HostM α) (s : HostState) :
    ((withUndoState body s).fst).config = s.config ∧
    (forceUndo s).config.state = true ∧ (forceUndo s).config.infinity = true ∧
    (forceUndo s).config.length = s.config.length := by
  refine ⟨?_, rfl, rfl, rfl⟩
  rw [withUndoState]

/-- An unlocked keyable attribute named `ln`, for the concrete reorder
scenario. -/
def demoAttr (ln : String) : HostAttr := ⟨ln, ln, false, true, false, [], []⟩

/-- A node whose host-reported attribute order is `[A, B, C]`, with arbitrary
undo-queue configuration, queue and log. -/
def demoState (cfg : UndoConfig) (q : List UndoEntry) (l : List HostEvent) : HostState :=
  ⟨[demoAttr "A", demoAttr "B", demoAttr "C"], cfg, q, l⟩

/-- C1: for a node reporting attributes in order `[A, B, C]` and desired
order `[C, A, B]`, running `reorder` leaves the host reporting `[C, A, B]`,
and the undo-queue settings after the call are exactly the settings before
the call — whatever they were. -/
theorem reorder_demo (cfg : UndoConfig) (q : List UndoEntry) (l : List HostEvent) :
    (reorder ["C", "A", "B"] (demoState cfg q l)).fst.attrs.map HostAttr.longName
        = ["C", "A", "B"] ∧
    (reorder ["C", "A", "B"] (demoState cfg q l)).fst.config = cfg ∧
    (reorder ["C", "A", "B"] (demoState cfg q l)).snd = Except.ok () := by
  exact ⟨rfl, rfl, rfl⟩

/-- The single attribute of the double-delete scenario. -/
def fooAttr : HostAttr := ⟨"foo", "Foo", false, true, false, [], []⟩

/-- A node holding just `foo`, with undo recording enabled. -/
def fooState : HostState := ⟨[fooAttr], ⟨true, false, 50⟩, [], []⟩

/-- C2 (code bug): `Attribute.delete` called twice in succession is not a
no-op the second time: the first call succeeds, and the second call raises
an `attributeAbsent` host failure at its very first host call
(`cmds.setAttr(path, lock=False)` on the now-missing attribute), contrary to
the method's own docstring ("If the attribute has already been deleted then
this will do nothing"). -/
theorem delete_absent_raises :
    (HostM.bind (attrDelete "foo") (fun _ => attrDelete "foo")) fooState
      = ((attrDelete "foo" fooState).fst, Except.error (HostErr.attributeAbsent "foo")) ∧
    (attrDelete "foo" fooState).snd = Except.ok () := by
  exact ⟨rfl, rfl⟩

/-- The bounded id search: when the first `fuel` candidate ids all exist, the
search walks past all of them (or stops at the bound). -/
theorem sepSearchGo_all (s : HostState) :
    ∀ (fuel id : Nat), (∀ j, j < fuel → attrExists s (sepName (id + j)) = true) →
      sepSearchGo s id (fuel + 1) = id + fuel := by
  intro fuel
  induction fuel with
  | zero =>
    intro id _
    cases h : attrExists s (sepName id) <;> simp [sepSearchGo, h]
  | succ f ihf =>
    intro id h
    have h0 : attrExists s (sepName id) = true := by
      have := h 0 (by omega)
      simpa using this
    have hrec := ihf (id + 1) (fun j hj => by
      have := h (j + 1) (by omega)
      have e : id + (j + 1) = id + 1 + j := by omega
      rw [e] at this
      exact this)
    rw [sepSearchGo, h0]
    simp only [if_true]
    rw [if_neg (by omega)]
    rw [hrec]
    omega

/-- C3 (amended): the bounded id search gives up only when
`__seperator_0 .. __seperator_10` all exist: it then stops at id 10, the
subsequent `cmds.addAttr` collides with the existing `__seperator_10`, and
the node's attribute set is left unchanged. -/
theorem add_seperator_gives_up_at_eleven (s : HostState) (text : String)
    (hall : ∀ i, i < 11 → attrExists s (sepName i) = true)
    (htext : 0 < text.length) :
    add_new_seperator text true s = (s, Except.error (HostErr.nameCollision (sepName 10))) := by
  have hsearch : sepSearch s = 10 := by
    have h := sepSearchGo_all s 10 0 (fun j hj => by simpa using hall j (by omega))
    simpa [sepSearch] using h
  simp [add_new_seperator, hsearch, addAttrEnum, hall 10 (by omega), htext]

/-- The locked separator attribute with id `i`. -/
def sepAttr (i : Nat) : HostAttr := ⟨sepName i, "part", true, false, true, [], []⟩

/-- A node already containing `__seperator_0 .. __seperator_9`. -/
def tenSepState : HostState := ⟨(List.range 10).map sepAttr, ⟨true, false, 50⟩, [], []⟩

/-- A node already containing `__seperator_0 .. __seperator_10`. -/
def elevenSepState : HostState := ⟨(List.range 11).map sepAttr, ⟨true, false, 50⟩, [], []⟩

/-- C3 counterexample: on a node already containing
`__seperator_0 .. __seperator_9`, `add_new_seperator` (dialog accepted with
nonempty text) does not refuse — it creates the eleventh separator
`__seperator_10`, growing the attribute set to 11. -/
theorem add_seperator_creates_eleventh :
    attrExists tenSepState "__seperator_10" = false ∧
    attrExists (add_new_seperator "Title" true tenSepState).fst "__seperator_10" = true ∧
    (add_new_seperator "Title" true tenSepState).fst.attrs.length = 11 := by
  exact ⟨rfl, rfl, rfl⟩

theorem add_seperator_gives_up_at_eleven_witness :
    (∀ i, i < 11 → attrExists elevenSepState (sepName i) = true) ∧
    0 < ("Title" : String).length ∧
    add_new_seperator "Title" true elevenSepState
      = (elevenSepState, Except.error (HostErr.nameCollision (sepName 10))) :=
  ⟨by decide, by decide, add_seperator_gives_up_at_eleven elevenSepState "Title" (by decide) (by decide)⟩

/-- C8: for every combination of the separator, locked, keyable and
visible-in-summary flags, the classification of `Attribute.refresh` assigns
exactly one display class (never none), and it equals the first matching
rule of the spec's priority table: separator > hidden-and-not-keyable >
locked > not-keyable > keyable. -/
theorem refresh_class_total_first_match (isSep locked keyable channelBox : Bool) :
    (refreshClass isSep locked keyable channelBox).isSome = true ∧
    refreshClass isSep locked keyable channelBox
      = specDisplayClass (isSep, locked, keyable, channelBox) := by
  cases isSep <;> cases locked <;> cases keyable <;> cases channelBox <;> exact ⟨rfl, rfl⟩

/-- C10: every type name other than `vector` / `integer` / `string` /
`double` / `boolean` / `enum` falls back to the Double type index — the same
value returned for `double`. -/
theorem get_type_index_unknown_default (name : String)
    (h : name ∉ ["vector", "integer", "string", "double", "boolean", "enum"]) :
    get_type_index name = type_double ∧ get_type_index "double" = type_double := by
  simp only [List.mem_cons, List.mem_singleton, not_or] at h
  obtain ⟨h1, h2, h3, h4, h5, h6⟩ := h
  constructor
  · simp [get_type_index, h1, h2, h3, h4, h5, h6]
  · rfl

/-- Witness for C10 at the unknown type name `matrix`. -/
theorem get_type_index_unknown_default_witness :
    ("matrix" ∉ ["vector", "integer", "string", "double", "boolean", "enum"]) ∧
    (get_type_index "matrix" = type_double ∧ get_type_index "double" = type_double) :=
  ⟨by decide, get_type_index_unknown_default "matrix" (by decide)⟩

/-- C6: renaming an attribute's long name to a name that already exists on
the node is a silent no-op: the call returns without raising and the host
state is byte-for-byte unchanged. -/
theorem rename_existing_long_noop (s : HostState) (ln X : String)
    (hX : attrExists s X = true) :
    attrRename ln none (some X) s = (s, Except.ok ln) := by
  show renameLongPart ln (some X) s = (s, Except.ok ln)
  rw [renameLongPart]
  simp [hX]

/-- C9 (amended): `set_keyable` on an existing attribute unlocks it and makes
it keyable; the channelBox flag — and hence the `is_hidden` predicate, which
only reads that flag — is left unchanged. -/
theorem set_keyable_flags (s : HostState) (ln : String) (a : HostAttr)
    (hfind : findAttr s ln = some a) :
    (set_keyable ln s).snd = Except.ok () ∧
    findAttr (set_keyable ln s).fst ln = some { a with locked := false, keyable := true } := by
  have haln : (a.longName == ln) = true := by
    have h := hfind
    rw [findAttr] at h
    exact @List.find?_some HostAttr (fun b => b.longName == ln) a s.attrs h
  have haln' : a.longName = ln := by simpa using haln
  have hex : attrExists s ln = true := by rw [attrExists, hfind]; rfl
  have h1 : findAttr (updateAttr s ln (fun b => { b with locked := false })) ln
      = some { a with locked := false } := by
    rw [findAttr_updateAttr s ln ln (fun b => { b with locked := false }) (fun _ => rfl), hfind]
    simp [haln']
  have hex1 : attrExists (updateAttr s ln (fun b => { b with locked := false })) ln = true := by
    rw [attrExists, h1]
    rfl
  have h2 : findAttr (updateAttr (updateAttr s ln (fun b => { b with locked := false })) ln
        (fun b => { b with keyable := true })) ln
      = some { a with locked := false, keyable := true } := by
    rw [findAttr_updateAttr _ ln ln (fun b => { b with keyable := true }) (fun _ => rfl), h1]
    simp [haln']
  have hcall : set_keyable ln s
      = (updateAttr (updateAttr s ln (fun b => { b with locked := false })) ln
          (fun b => { b with keyable := true }), Except.ok ()) := by
    show HostM.bind (setAttrLock ln false) (fun _ => setAttrKeyable ln true) s = _
    unfold HostM.bind setAttrLock setAttrKeyable
    simp only [hex, hex1, if_true]
  rw [hcall]
  exact ⟨rfl, h2⟩

/-- A node with one hidden attribute: locked, not keyable, channelBox flag
unset. -/
def hiddenFooState : HostState :=
  ⟨[⟨"foo", "Foo", true, false, false, [], []⟩], ⟨true, false, 50⟩, [], []⟩

/-- C9 counterexample: applying `set_keyable` to a hidden attribute leaves
`is_hidden` true — the operation never writes the channelBox flag that
`is_hidden` reads — so the attribute is not "not hidden" as claimed, even
though it is now unlocked and keyable. -/
theorem set_keyable_leaves_hidden :
    (set_keyable "foo" hiddenFooState).snd = Except.ok () ∧
    is_keyable (set_keyable "foo" hiddenFooState).fst "foo" = true ∧
    is_locked (set_keyable "foo" hiddenFooState).fst "foo" = false ∧
    is_hidden (set_keyable "foo" hiddenFooState).fst "foo" = true := by
  exact ⟨rfl, rfl, rfl, rfl⟩

/-- C7: renaming an attribute's long name preserves its lock state: the
operation unlocks a locked attribute before the host rename (the host
forbids renaming locked attributes) and restores the lock afterwards, so a
locked attribute stays locked and an unlocked one stays unlocked. -/
theorem rename_long_preserves_lock (s : HostState) (ln X : String) (a : HostAttr)
    (hfind : findAttr s ln = some a) (hX : attrExists s X = false) :
    (attrRename ln none (some X) s).snd = Except.ok X ∧
    Option.map HostAttr.locked (findAttr (attrRename ln none (some X) s).fst X)
      = some a.locked := by
  have haln : (a.longName == ln) = true := by
    have h := hfind
    rw [findAttr] at h
    exact @List.find?_some HostAttr (fun b => b.longName == ln) a s.attrs h
  have haln' : a.longName = ln := by simpa using haln
  have hXnone : findAttr s X = none := by
    cases h : findAttr s X with
    | none => rfl
    | some b =>
      rw [attrExists, h] at hX
      simp at hX
  have hnoX : ∀ b ∈ s.attrs, b.longName ≠ X := by
    intro b hb hbeq
    have hfn := List.find?_eq_none.mp hXnone b hb
    apply hfn
    simp [hbeq]
  have hwl : (findAttr s ln).elim false (fun b => b.locked) = a.locked := by simp [hfind]
  cases hlk : a.locked with
  | false =>
    have hren : renameAttr ln X s
        = (updateAttr s ln (fun x => { x with longName := X }), Except.ok ()) := by
      unfold renameAttr
      rw [hfind]
      simp [hlk, hX]
    have hs2X : findAttr (updateAttr s ln (fun x => { x with longName := X })) X
        = some { a with longName := X } := by
      show (s.attrs.map (fun b => if b.longName == ln then { b with longName := X } else b)).find?
          (fun b => b.longName == X) = _
      rw [find?_map_rename ln X (fun x => { x with longName := X }) (fun _ => rfl) s.attrs hnoX]
      rw [show s.attrs.find? (fun b => b.longName == ln) = some a from hfind]
      rfl
    have hcall : attrRename ln none (some X) s
        = (updateAttr s ln (fun x => { x with longName := X }), Except.ok X) := by
      show renameLongPart ln (some X) s = _
      unfold renameLongPart
      simp [hX, hwl, hlk, hren]
    rw [hcall]
    refine ⟨rfl, ?_⟩
    rw [show (updateAttr s ln (fun x => { x with longName := X }), Except.ok X).fst
        = updateAttr s ln (fun x => { x with longName := X }) from rfl]
    rw [hs2X, hlk]
    rfl
  | true =>
    have hs1ln : findAttr (updateAttr s ln (fun x => { x with locked := false })) ln
        = some { a with locked := false } := by
      rw [findAttr_updateAttr s ln ln (fun x => { x with locked := false }) (fun _ => rfl), hfind]
      simp [haln']
    have hs1X : findAttr (updateAttr s ln (fun x => { x with locked := false })) X = none := by
      rw [findAttr_updateAttr s ln X (fun x => { x with locked := false }) (fun _ => rfl), hXnone]
      rfl
    have hex1X : attrExists (updateAttr s ln (fun x => { x with locked := false })) X = false := by
      rw [attrExists, hs1X]
      rfl
    have hren : renameAttr ln X (updateAttr s ln (fun x => { x with locked := false }))
        = (updateAttr (updateAttr s ln (fun x => { x with locked := false })) ln
            (fun x => { x with longName := X }), Except.ok ()) := by
      unfold renameAttr
      rw [hs1ln]
      simp [hex1X]
    have hnoX1 : ∀ b ∈ (updateAttr s ln (fun x => { x with locked := false })).attrs,
        b.longName ≠ X := by
      intro b hb
      rw [updateAttr] at hb
      obtain ⟨c, hc, rfl⟩ := List.mem_map.mp hb
      have hcX := hnoX c hc
      by_cases hc2 : c.longName = ln
      · simp [hc2]
        exact hc2 ▸ hcX
      · simp [hc2, hcX]
    have hs2X : findAttr (updateAttr (updateAttr s ln (fun x => { x with locked := false })) ln
          (fun x => { x with longName := X })) X
        = some { a with locked := false, longName := X } := by
      show ((updateAttr s ln (fun x => { x with locked := false })).attrs.map
            (fun b => if b.longName == ln then { b with longName := X } else b)).find?
          (fun b => b.longName == X) = _
      rw [find?_map_rename ln X (fun x => { x with longName := X }) (fun _ => rfl) _ hnoX1]
      rw [show (updateAttr s ln (fun x => { x with locked := false })).attrs.find?
            (fun b => b.longName == ln)
          = some { a with locked := false } from hs1ln]
      rfl
    have hs3X : findAttr (updateAttr (updateAttr (updateAttr s ln
              (fun x => { x with locked := false })) ln (fun x => { x with longName := X })) X
          (fun x => { x with locked := true })) X
        = some { a with longName := X, locked := true } := by
      rw [findAttr_updateAttr _ X X (fun x => { x with locked := true }) (fun _ => rfl), hs2X]
      simp
    have hcall : attrRename ln none (some X) s
        = (updateAttr (updateAttr (updateAttr s ln (fun x => { x with locked := false })) ln
            (fun x => { x with longName := X })) X (fun x => { x with locked := true }),
           Except.ok X) := by
      show renameLongPart ln (some X) s = _
      unfold renameLongPart
      simp [hX, hwl, hlk, hren]
    rw [hcall]
    refine ⟨rfl, ?_⟩
    rw [show (updateAttr (updateAttr (updateAttr s ln (fun x => { x with locked := false })) ln
          (fun x => { x with longName := X })) X (fun x => { x with locked := true }),
          Except.ok X).fst
        = updateAttr (updateAttr (updateAttr s ln (fun x => { x with locked := false })) ln
            (fun x => { x with longName := X })) X (fun x => { x with locked := true }) from rfl]
    rw [hs3X]
    rfl

/-- Concrete scenario exercising the hypotheses of `reorder_protocol_trace`. -/
def w4State : HostState := ⟨[demoAttr "A", demoAttr "B", demoAttr "C"], ⟨false, true, 9⟩, [], []⟩

/-- Witness for C4: the reorder trace theorem applied to a concrete
three-attribute node with desired order `["C", "A", "B"]`. -/
theorem reorder_protocol_trace_witness :
    (["C", "A", "B"] : List String).Nodup ∧
    (∀ d ∈ (["C", "A", "B"] : List String), (findAttr w4State d).isSome = true) ∧
    (∃ s1, reorder ["C", "A", "B"] w4State = (s1, Except.ok ()) ∧
      s1.log = w4State.log ++ (["C", "A", "B"] : List String).reverse.map HostEvent.deleted
          ++ List.replicate (["C", "A", "B"] : List String).length HostEvent.undid ∧
      (deleteAll (["C", "A", "B"] : List String).reverse (forceUndo w4State)).fst.undoQueue.length
        = (["C", "A", "B"] : List String).length + w4State.undoQueue.length) :=
  ⟨by decide, by decide, reorder_protocol_trace ["C", "A", "B"] w4State (by decide) (by decide)⟩

/-- Concrete node for the rename-collision witness: two attributes. -/
def w6State : HostState :=
  ⟨[⟨"alpha", "Alpha", false, true, false, [], []⟩,
    ⟨"beta", "Beta", true, false, true, [], []⟩], ⟨true, true, 5⟩, [], []⟩

/-- Witness for C6: renaming `alpha` to the already-existing long name `beta`
is a silent no-op leaving the state untouched. -/
theorem rename_existing_long_noop_witness :
    attrExists w6State "beta" = true ∧
    attrRename "alpha" none (some "beta") w6State = (w6State, Except.ok "alpha") :=
  ⟨by decide, rename_existing_long_noop w6State "alpha" "beta" (by decide)⟩

/-- The locked attribute of the rename-lock witness. -/
def w7Attr : HostAttr := ⟨"alpha", "Alpha", true, false, true, [], []⟩

/-- Concrete node for the rename-lock witness: one locked attribute. -/
def w7State : HostState := ⟨[w7Attr], ⟨true, true, 5⟩, [], []⟩

/-- Witness for C7: renaming the locked attribute `alpha` to the fresh long
name `gamma` succeeds and the renamed attribute is still locked. -/
theorem rename_long_preserves_lock_witness :
    findAttr w7State "alpha" = some w7Attr ∧
    attrExists w7State "gamma" = false ∧
    ((attrRename "alpha" none (some "gamma") w7State).snd = Except.ok "gamma" ∧
      Option.map HostAttr.locked
          (findAttr (attrRename "alpha" none (some "gamma") w7State).fst "gamma")
        = some w7Attr.locked) :=
  ⟨by decide, by decide,
    rename_long_preserves_lock w7State "alpha" "gamma" w7Attr (by decide) (by decide)⟩

/-- The locked, hidden attribute of the set-keyable witness. -/
def w9Attr : HostAttr := ⟨"size", "Size", true, false, false, [], []⟩

/-- Concrete node for the set-keyable witness. -/
def w9State : HostState := ⟨[w9Attr], ⟨true, false, 20⟩, [], []⟩

/-- Witness for C9 (amended): `set_keyable` on the attribute `size` unlocks it
and makes it keyable, leaving the channelBox flag as it was. -/
theorem set_keyable_flags_witness :
    findAttr w9State "size" = some w9Attr ∧
    ((set_keyable "size" w9State).snd = Except.ok () ∧
      findAttr (set_keyable "size" w9State).fst "size"
        = some { w9Attr with locked := false, keyable := true }) :=
  ⟨by decide, set_keyable_flags w9State "size" w9Attr (by decide)⟩
